import Mathlib

/-!
Shallow embedding of `custom_components/clash_royale/config_flow.py`.

Python strings are modelled as `List Char`; Python dictionaries with
string keys as association lists; an HTTP request either yields a status
code or raises, modelled by `HttpResult`.  Each config-flow step is a
pure function of the flow state, the submitted form data and the HTTP
outcome; a whole run of the wizard is modelled by `runFlow`, which also
records a trace of the steps executed and of the validation calls made.
-/

namespace ClashRoyale

/-- Python strings are modelled as lists of characters. -/
abbrev Str := List Char

/-- Characters removed by Python `str.strip()`. -/
def isPySpace (c : Char) : Bool := c.isWhitespace

/-- Removal of leading whitespace: the left half of `str.strip()`. -/
def stripLeft (l : Str) : Str := l.dropWhile isPySpace

/-- Removal of trailing whitespace: the right half of `str.strip()`. -/
def stripRight (l : Str) : Str := (l.reverse.dropWhile isPySpace).reverse

/-- Python `str.strip()`: drop leading and trailing whitespace. -/
def pyStrip (l : Str) : Str := stripRight (stripLeft l)

/-- Python `s.startswith("#")`. -/
def startsWithHash : Str → Bool
  | [] => false
  | c :: _ => c = '#'

/-- `_normalize_player_tag` (config_flow.py lines 173-183): strip the
tag and prepend `#` when it is not already there. -/
def normalize_player_tag (player_tag : Str) : Str :=
  let t := pyStrip player_tag
  if startsWithHash t then t else '#' :: t

/-- The entry title built in `async_step_player`: `f"Player {player_tag}"`. -/
def playerTitle (ptag : Str) : Str := "Player ".toList ++ ptag

/-- The dictionary `{"valid": ..., "errors": {...}}` returned by both
validators; the `errors` dictionary is a (short) association list. -/
structure ValidationResult where
  valid : Bool
  errors : List (String × String)
deriving DecidableEq

/-- Outcome of the HTTP GET inside a validator: a status code, or a
raised exception (caught by the surrounding `try`/`except`). -/
inductive HttpResult where
  | ok (status : Nat)
  | exn
deriving DecidableEq

/-- `_validate_api_token` (lines 121-147): branch on the status of the
dummy-player GET; any raised exception becomes a `connection_error`. -/
def validate_api_token (api_token : Str) (proxy_url : Option Str)
    (resp : HttpResult) : ValidationResult :=
  match resp with
  | .ok status =>
      if status = 403 then ⟨false, [("api_token", "invalid_token")]⟩
      else if status ∈ [400, 404, 200] then ⟨true, []⟩
      else ⟨false, [("base", "api_error")]⟩
  | .exn => ⟨false, [("base", "connection_error")]⟩

/-- `_validate_player_tag` (lines 149-171): branch on the status of the
player GET; any raised exception becomes a `connection_error`. -/
def validate_player_tag (player_tag : Str) (proxy_url : Option Str)
    (resp : HttpResult) : ValidationResult :=
  match resp with
  | .ok status =>
      if status = 404 then ⟨false, [("player_tag", "player_not_found")]⟩
      else if status = 200 then ⟨true, []⟩
      else ⟨false, [("base", "api_error")]⟩
  | .exn => ⟨false, [("base", "connection_error")]⟩

/-- Python `d.get(k)` on a dictionary whose values are strings or
`None`: absent keys and `None` values both give `None`. -/
def pyGet (d : List (String × Option Str)) (k : String) : Option Str :=
  match d.lookup k with
  | some v => v
  | none => none

/-- Python truthiness of a string-or-`None` value: `None` and the empty
string are falsy. -/
def pyTruthy : Option Str → Bool
  | none => false
  | some s => decide (s ≠ [])

/-- A persisted config entry as the flow sees it: its `data` dictionary. -/
structure Entry where
  data : List (String × Option Str)
deriving DecidableEq

/-- `_is_player_already_configured` (lines 185-191): some existing
entry stores exactly this player tag. -/
def is_player_already_configured (entries : List Entry) (player_tag : Str) : Bool :=
  entries.any (fun e => pyGet e.data "player_tag" == some player_tag)

/-- The mutable fields of `ClashRoyaleConfigFlow` (`self.api_token`,
`self.proxy_url`), each a string or Python `None`. -/
structure FlowState where
  api_token : Option Str
  proxy_url : Option Str
deriving DecidableEq

/-- What a step hands back to the host: a form (step id and errors) or
a created entry (title and data). -/
inductive StepResult where
  | showForm (step_id : String) (errors : List (String × String))
  | createEntry (title : Str) (data : List (String × Option Str))
deriving DecidableEq

/-- `async_step_player` (lines 84-119) on one invocation.  `input` is
`None` on first display, otherwise `user_input.get("player_tag")`.
`resp` is the outcome the HTTP GET would have; the second component of
the result lists the validation calls actually made, as (tag, valid)
pairs, so that "no GET was performed" is expressible. -/
def async_step_player (st : FlowState) (entries : List Entry)
    (input : Option (Option Str)) (resp : HttpResult) :
    StepResult × List (Str × Bool) :=
  match input with
  | none => (.showForm "player" [], [])
  | some tagInput =>
      if pyTruthy tagInput = false then
        (.showForm "player" [("base", "missing_data")], [])
      else
        let ptag := normalize_player_tag (tagInput.getD [])
        if is_player_already_configured entries ptag then
          (.showForm "player" [("player_tag", "already_configured")], [])
        else
          let vr := validate_player_tag ptag st.proxy_url resp
          if vr.valid then
            (.createEntry (playerTitle ptag)
              [("api_token", st.api_token), ("player_tag", some ptag),
               ("proxy_url", st.proxy_url)], [(ptag, true)])
          else
            (.showForm "player" vr.errors, [(ptag, false)])

/-- The wizard's position: which step's form is pending. -/
inductive Phase where
  | user
  | proxy
  | token
  | player
deriving DecidableEq

/-- Driver state: pending phase plus the two `self` fields. -/
structure St where
  phase : Phase
  api_token : Option Str
  proxy_url : Option Str
deriving DecidableEq

/-- Observable events of a run: a step executing, and each validation
call with its outcome. -/
inductive Event where
  | stepRun (p : Phase)
  | validatedToken (tok : Str) (ok : Bool)
  | validatedPlayer (tag : Str) (ok : Bool)
deriving DecidableEq

/-- One form submission: the (optional) string the user supplied in the
form's field, and the outcome of the HTTP GET a validation would make. -/
structure StepInput where
  value : Option Str
  resp : HttpResult
deriving DecidableEq

/-- The entry handed to `async_create_entry`. -/
structure Created where
  title : Str
  data : List (String × Option Str)
deriving DecidableEq

/-- Prepend events to a run outcome. -/
def withEvents (es : List Event) (p : List Event × Option Created) :
    List Event × Option Created :=
  (es ++ p.1, p.2)

/-- `async_step_user` (lines 31-44): check existing entries; with a
truthy stored token, jump straight to the player step, else start at
the proxy step (copying any stored fields into `self`). -/
def step_user (entries : List Entry) : St × List Event :=
  match entries with
  | [] => (⟨.proxy, none, none⟩, [.stepRun .user])
  | e :: _ =>
      let tok := pyGet e.data "api_token"
      let pxy := pyGet e.data "proxy_url"
      if pyTruthy tok then (⟨.player, tok, pxy⟩, [.stepRun .user])
      else (⟨.proxy, tok, pxy⟩, [.stepRun .user])

/-- The host's resubmission loop: each `StepInput` is one submission of
the currently pending form.  `async_step_proxy` (lines 46-58) stores the
proxy and moves on; `async_step_token` (lines 60-82) validates and moves
on only on success; the player step is `async_step_player` above.  The
run stops at `async_create_entry` or when the script is exhausted. -/
def runLoop (entries : List Entry) : St → List StepInput → List Event × Option Created
  | _, [] => ([], none)
  | st, i :: rest =>
    match st.phase with
    | .user => ([], none)
    | .proxy =>
        withEvents [.stepRun .proxy]
          (runLoop entries ⟨.token, st.api_token, i.value⟩ rest)
    | .token =>
        if pyTruthy i.value = false then
          withEvents [.stepRun .token] (runLoop entries st rest)
        else
          let tok := i.value.getD []
          if (validate_api_token tok st.proxy_url i.resp).valid then
            withEvents [.stepRun .token, .validatedToken tok true]
              (runLoop entries ⟨.player, some tok, st.proxy_url⟩ rest)
          else
            withEvents [.stepRun .token, .validatedToken tok false]
              (runLoop entries st rest)
    | .player =>
        match async_step_player ⟨st.api_token, st.proxy_url⟩ entries
          (some i.value) i.resp with
        | (.createEntry title data, calls) =>
            (Event.stepRun .player ::
              calls.map (fun c => Event.validatedPlayer c.1 c.2),
             some ⟨title, data⟩)
        | (.showForm _ _, calls) =>
            withEvents (Event.stepRun .player ::
              calls.map (fun c => Event.validatedPlayer c.1 c.2))
              (runLoop entries st rest)

/-- A whole run of the config flow: the initial `async_step_user` call,
then the submission loop. -/
def runFlow (entries : List Entry) (inputs : List StepInput) :
    List Event × Option Created :=
  withEvents (step_user entries).2
    (runLoop entries (step_user entries).1 inputs)

/-- The steps executed during a run, in order. -/
def stepsOf (tr : List Event) : List Phase :=
  tr.filterMap (fun e => match e with | .stepRun p => some p | _ => none)

/-- Recognizer for api-token validation events. -/
def isTokenValidationEvent : Event → Bool
  | .validatedToken _ _ => true
  | _ => false

/-- The head of `dropWhile p` never satisfies `p`. -/
theorem head_dropWhile_false (p : Char → Bool) :
    ∀ (l : Str) (c : Char), (l.dropWhile p).head? = some c → p c = false := by
  intro l
  induction l with
  | nil => intro c h; simp [List.dropWhile] at h
  | cons a t ih =>
      intro c h
      by_cases hp : p a
      · rw [List.dropWhile_cons] at h
        simp only [hp, if_true] at h
        exact ih c h
      · rw [List.dropWhile_cons] at h
        simp only [hp, if_false, Bool.false_eq_true, List.head?_cons,
          Option.some.injEq] at h
        subst h
        simpa using hp

/-- A list whose head does not satisfy `p` is untouched by `dropWhile p`. -/
theorem dropWhile_eq_self_of_head (p : Char → Bool) (l : Str)
    (h : ∀ c, l.head? = some c → p c = false) : l.dropWhile p = l := by
  cases l with
  | nil => rfl
  | cons a t => simp [List.dropWhile_cons, h a rfl]

/-- `dropWhile` is idempotent. -/
theorem dropWhile_idem (p : Char → Bool) (l : Str) :
    (l.dropWhile p).dropWhile p = l.dropWhile p :=
  dropWhile_eq_self_of_head p _ (head_dropWhile_false p l)

/-- `dropWhile p l` is a suffix of `l`. -/
theorem exists_append_dropWhile (p : Char → Bool) :
    ∀ l : Str, ∃ t, l = t ++ l.dropWhile p := by
  intro l
  induction l with
  | nil => exact ⟨[], rfl⟩
  | cons a t ih =>
      by_cases hp : p a
      · obtain ⟨u, hu⟩ := ih
        refine ⟨a :: u, ?_⟩
        simp only [List.dropWhile_cons, hp, if_true, List.cons_append]
        exact congrArg (a :: ·) hu
      · exact ⟨[], by simp [List.dropWhile_cons, hp]⟩

/-- Stripping from the right never changes a nonempty list's head. -/
theorem head_stripRight (l : Str) (c : Char)
    (h : (stripRight l).head? = some c) : l.head? = some c := by
  obtain ⟨t, ht⟩ := exists_append_dropWhile isPySpace l.reverse
  have hl : l = (l.reverse.dropWhile isPySpace).reverse ++ t.reverse := by
    have h2 := congrArg List.reverse ht
    simpa [List.reverse_append] using h2
  unfold stripRight at h
  rw [hl]
  have hmem : c ∈ ((l.reverse.dropWhile isPySpace).reverse).head? := by
    rw [Option.mem_def]; exact h
  have h3 := List.mem_head?_append_of_mem_head? (t := t.reverse) hmem
  rw [Option.mem_def] at h3
  exact h3

/-- The head of a fully stripped string is not whitespace. -/
theorem head_pyStrip_false (l : Str) (c : Char)
    (h : (pyStrip l).head? = some c) : isPySpace c = false := by
  have h2 : (stripLeft l).head? = some c := head_stripRight (stripLeft l) c h
  unfold stripLeft at h2
  exact head_dropWhile_false isPySpace l c h2

/-- Stripping a stripped string on the left does nothing. -/
theorem stripLeft_pyStrip (l : Str) : stripLeft (pyStrip l) = pyStrip l :=
  dropWhile_eq_self_of_head _ _ (fun c hc => head_pyStrip_false l c hc)

/-- Right-stripping is idempotent. -/
theorem stripRight_stripRight (l : Str) :
    stripRight (stripRight l) = stripRight l := by
  simp [stripRight, List.reverse_reverse, dropWhile_idem]

/-- `str.strip()` is idempotent. -/
theorem pyStrip_idem (l : Str) : pyStrip (pyStrip l) = pyStrip l := by
  have h : stripLeft (pyStrip l) = pyStrip l := stripLeft_pyStrip l
  show stripRight (stripLeft (pyStrip l)) = pyStrip l
  rw [h]
  show stripRight (stripRight (stripLeft l)) = pyStrip l
  exact stripRight_stripRight _

/-- Appending a final `#` to a left-clean list keeps it clean. -/
theorem dropWhile_append_hash (p : Char → Bool) (u : Str)
    (hu : ∀ c, u.head? = some c → p c = false) (hx : p '#' = false) :
    (u ++ ['#']).dropWhile p = u ++ ['#'] := by
  apply dropWhile_eq_self_of_head
  intro c hc
  cases u with
  | nil =>
      simp only [List.nil_append, List.head?_cons, Option.some.injEq] at hc
      subst hc; exact hx
  | cons a t =>
      simp only [List.cons_append, List.head?_cons, Option.some.injEq] at hc
      subst hc; exact hu a rfl

/-- Prepending `#` to a stripped string yields a stripped string. -/
theorem pyStrip_hash_cons (l : Str) :
    pyStrip ('#' :: pyStrip l) = '#' :: pyStrip l := by
  have hL : stripLeft ('#' :: pyStrip l) = '#' :: pyStrip l := by
    simp [stripLeft, List.dropWhile_cons, isPySpace, Char.isWhitespace]
  have hrev : (pyStrip l).reverse = (stripLeft l).reverse.dropWhile isPySpace := by
    simp [pyStrip, stripRight]
  have hR : stripRight ('#' :: pyStrip l) = '#' :: pyStrip l := by
    unfold stripRight
    rw [show ('#' :: pyStrip l).reverse = (pyStrip l).reverse ++ ['#'] by simp]
    rw [dropWhile_append_hash isPySpace _
      (fun c hc => by rw [hrev] at hc; exact head_dropWhile_false _ _ _ hc)
      (by decide)]
    simp
  show stripRight (stripLeft ('#' :: pyStrip l)) = _
  rw [hL, hR]

/-- Unfolding of `normalize_player_tag` as a conditional on the
stripped input. -/
theorem normalize_eq_ite (l : Str) :
    normalize_player_tag l =
      (if startsWithHash (pyStrip l) = true then pyStrip l
       else '#' :: pyStrip l) := rfl

/-- Every normalized tag starts with the hash character. -/
theorem startsWithHash_normalize (l : Str) :
    startsWithHash (normalize_player_tag l) = true := by
  rw [normalize_eq_ite]
  by_cases h : startsWithHash (pyStrip l) = true
  · rw [if_pos h]; exact h
  · rw [if_neg h]; rfl

/-- C1: `_normalize_player_tag` always returns a string starting with
`#`: it strips the input and prepends a single `#` exactly when the
stripped string does not already start with `#`, otherwise it returns
the stripped string unchanged. -/
theorem C1_normalize_player_tag (l : Str) :
    startsWithHash (normalize_player_tag l) = true ∧
    normalize_player_tag l =
      (if startsWithHash (pyStrip l) = true then pyStrip l
       else '#' :: pyStrip l) :=
  ⟨startsWithHash_normalize l, normalize_eq_ite l⟩

/-- C8: `_normalize_player_tag` is idempotent. -/
theorem C8_normalize_idempotent (l : Str) :
    normalize_player_tag (normalize_player_tag l) = normalize_player_tag l := by
  by_cases h : startsWithHash (pyStrip l) = true
  · have h1 : normalize_player_tag l = pyStrip l := by
      rw [normalize_eq_ite, if_pos h]
    rw [h1, normalize_eq_ite, pyStrip_idem l, if_pos h]
  · have h1 : normalize_player_tag l = '#' :: pyStrip l := by
      rw [normalize_eq_ite, if_neg h]
    rw [h1, normalize_eq_ite, pyStrip_hash_cons l,
      if_pos (show startsWithHash ('#' :: pyStrip l) = true from rfl)]

/-- C2: the token validator marks the token invalid exactly on a 403
(valid = false with `api_token ↦ invalid_token`), and accepts statuses
400, 404 and 200 with no errors. -/
theorem C2_token_status_interpretation (tok : Str) (proxy : Option Str) :
    validate_api_token tok proxy (.ok 403)
      = ⟨false, [("api_token", "invalid_token")]⟩ ∧
    validate_api_token tok proxy (.ok 400) = ⟨true, []⟩ ∧
    validate_api_token tok proxy (.ok 404) = ⟨true, []⟩ ∧
    validate_api_token tok proxy (.ok 200) = ⟨true, []⟩ :=
  ⟨rfl, rfl, rfl, rfl⟩

/-- C3: the player validator returns `player_tag ↦ player_not_found`
on a 404, and yields valid = true for status 200 and for no other
outcome of the GET. -/
theorem C3_player_status_interpretation (tag : Str) (proxy : Option Str) :
    validate_player_tag tag proxy (.ok 404)
      = ⟨false, [("player_tag", "player_not_found")]⟩ ∧
    ∀ r : HttpResult,
      ((validate_player_tag tag proxy r).valid = true ↔ r = .ok 200) := by
  refine ⟨rfl, ?_⟩
  intro r
  cases r with
  | exn => simp [validate_player_tag]
  | ok s =>
      by_cases h4 : s = 404
      · subst h4; simp [validate_player_tag]
      · by_cases h2 : s = 200
        · subst h2; simp [validate_player_tag]
        · simp [validate_player_tag, h4, h2]

/-- C9: both validators are total over responses and exceptions; their
errors dictionary is empty exactly when the result is valid, and a
raised exception yields `base ↦ connection_error` with valid = false. -/
theorem C9_validators_never_propagate (tok tag : Str) (proxy : Option Str) :
    (∀ r : HttpResult,
      ((validate_api_token tok proxy r).errors = []
        ↔ (validate_api_token tok proxy r).valid = true)) ∧
    (∀ r : HttpResult,
      ((validate_player_tag tag proxy r).errors = []
        ↔ (validate_player_tag tag proxy r).valid = true)) ∧
    validate_api_token tok proxy .exn
      = ⟨false, [("base", "connection_error")]⟩ ∧
    validate_player_tag tag proxy .exn
      = ⟨false, [("base", "connection_error")]⟩ := by
  refine ⟨?_, ?_, rfl, rfl⟩
  · intro r
    cases r with
    | exn => simp [validate_api_token]
    | ok s =>
        by_cases h3 : s = 403
        · subst h3; simp [validate_api_token]
        · by_cases hm : s ∈ [400, 404, 200]
          · simp [validate_api_token, h3, hm]
          · simp [validate_api_token, h3, hm]
  · intro r
    cases r with
    | exn => simp [validate_player_tag]
    | ok s =>
        by_cases h4 : s = 404
        · subst h4; simp [validate_player_tag]
        · by_cases h2 : s = 200
          · subst h2; simp [validate_player_tag, h4]
          · simp [validate_player_tag, h4, h2]

/-- A value of an options dictionary: an integer, a string, or `None`. -/
inductive OVal where
  | vnone
  | vint (n : Int)
  | vstr (s : Str)
deriving DecidableEq

/-- Python `d.get(k, default)` on an options dictionary. -/
def dictGetD (d : List (String × OVal)) (k : String) (dflt : OVal) : OVal :=
  match d.lookup k with
  | some v => v
  | none => dflt

/-- The config entry as the options flow sees it: its `data` and
`options` dictionaries. -/
structure ConfigEntry where
  data : List (String × OVal)
  options : List (String × OVal)
deriving DecidableEq

/-- What the options step hands back: an entry, or the form with the
schema's default for each field. -/
inductive OptionsStepResult where
  | createEntry (title : Str) (data : List (String × OVal))
  | showForm (step_id : String) (defaults : List (String × OVal))
deriving DecidableEq

/-- `ClashRoyaleOptionsFlowHandler.async_step_init` (lines 199-212):
with input, persist it verbatim; without, show the form whose
`interval` defaults to the stored option or 300 and whose `proxy_url`
defaults to the stored option, else the entry's data value, else the
empty string. -/
def ClashRoyaleOptionsFlowHandler.async_step_init (entry : ConfigEntry)
    (input : Option (List (String × OVal))) : OptionsStepResult :=
  match input with
  | some d => .createEntry [] d
  | none =>
      .showForm "init"
        [("interval", dictGetD entry.options "interval" (.vint 300)),
         ("proxy_url", dictGetD entry.options "proxy_url"
            (dictGetD entry.data "proxy_url" (.vstr [])))]

/-- C7: the options flow persists exactly the submitted input, and
without input shows the form with the documented defaults for the
polling interval and the proxy URL. -/
theorem C7_options_flow (entry : ConfigEntry) (d : List (String × OVal)) :
    ClashRoyaleOptionsFlowHandler.async_step_init entry (some d)
      = .createEntry [] d ∧
    ClashRoyaleOptionsFlowHandler.async_step_init entry none
      = .showForm "init"
          [("interval", dictGetD entry.options "interval" (.vint 300)),
           ("proxy_url", dictGetD entry.options "proxy_url"
              (dictGetD entry.data "proxy_url" (.vstr [])))] :=
  ⟨rfl, rfl⟩

/-- Inversion: the player step creates an entry only from a truthy
submitted tag that normalizes to a not-yet-configured tag whose
validation succeeded, and the created entry has the fixed shape. -/
theorem async_step_player_createEntry (st : FlowState) (entries : List Entry)
    (input : Option (Option Str)) (resp : HttpResult) (title : Str)
    (data : List (String × Option Str)) (calls : List (Str × Bool))
    (h : async_step_player st entries input resp
      = (.createEntry title data, calls)) :
    ∃ raw, input = some (some raw) ∧
      title = playerTitle (normalize_player_tag raw) ∧
      data = [("api_token", st.api_token),
              ("player_tag", some (normalize_player_tag raw)),
              ("proxy_url", st.proxy_url)] ∧
      calls = [(normalize_player_tag raw, true)] ∧
      is_player_already_configured entries (normalize_player_tag raw) = false ∧
      (validate_player_tag (normalize_player_tag raw) st.proxy_url resp).valid
        = true := by
  cases input with
  | none => simp [async_step_player] at h
  | some v =>
      cases v with
      | none => simp [async_step_player, pyTruthy] at h
      | some raw =>
          simp only [async_step_player] at h
          refine ⟨raw, rfl, ?_⟩
          by_cases hr : pyTruthy (some raw) = false
          · rw [if_pos hr] at h
            exact absurd h (by simp)
          · rw [if_neg hr] at h
            simp only [Option.getD_some] at h
            by_cases hc : is_player_already_configured entries
                (normalize_player_tag raw) = true
            · rw [if_pos hc] at h
              exact absurd h (by simp)
            · rw [if_neg hc] at h
              by_cases hv : (validate_player_tag (normalize_player_tag raw)
                  st.proxy_url resp).valid = true
              · rw [if_pos hv] at h
                rw [Prod.ext_iff] at h
                obtain ⟨h1, h2⟩ := h
                simp only [StepResult.createEntry.injEq] at h1
                obtain ⟨hT, hD⟩ := h1
                simp only [Bool.not_eq_true] at hc
                exact ⟨hT.symm, hD.symm, h2.symm, hc, hv⟩
              · rw [if_neg hv] at h
                exact absurd h (by simp)

/-- C4: a truthy submitted tag whose normalized form is already
configured makes `async_step_player` return the player form with the
`already_configured` error, and no validation call is made. -/
theorem C4_already_configured_short_circuit (st : FlowState)
    (entries : List Entry) (v : Option Str) (resp : HttpResult)
    (h1 : pyTruthy v = true)
    (h2 : is_player_already_configured entries
      (normalize_player_tag (v.getD [])) = true) :
    async_step_player st entries (some v) resp
      = (.showForm "player" [("player_tag", "already_configured")], []) := by
  have hne : ¬ pyTruthy v = false := by rw [h1]; simp
  simp only [async_step_player]
  rw [if_neg hne]
  simp only [h2, if_true]

/-- C10: every entry the player step persists has data with exactly
the keys api_token, player_tag and proxy_url, a player_tag value that
starts with the hash character, a title of the form Player-space-tag,
and a normalized tag that was not already configured. -/
theorem C10_created_entry_shape (st : FlowState) (entries : List Entry)
    (input : Option (Option Str)) (resp : HttpResult) (title : Str)
    (data : List (String × Option Str)) (calls : List (Str × Bool))
    (h : async_step_player st entries input resp
      = (.createEntry title data, calls)) :
    data.map Prod.fst = ["api_token", "player_tag", "proxy_url"] ∧
    ∃ ptag, pyGet data "player_tag" = some ptag ∧
      startsWithHash ptag = true ∧
      title = "Player ".toList ++ ptag ∧
      is_player_already_configured entries ptag = false := by
  obtain ⟨raw, hin, hT, hD, hC, hcfg, hval⟩ :=
    async_step_player_createEntry st entries input resp title data calls h
  subst hT
  subst hD
  refine ⟨rfl, normalize_player_tag raw, ?_, startsWithHash_normalize raw,
    rfl, hcfg⟩
  simp [pyGet, List.lookup]

/-- `stepsOf` distributes over append. -/
theorem stepsOf_append (a b : List Event) :
    stepsOf (a ++ b) = stepsOf a ++ stepsOf b := by
  simp [stepsOf, List.filterMap_append]

/-- A step event contributes its phase to `stepsOf`. -/
theorem stepsOf_stepRun_cons (p : Phase) (tr : List Event) :
    stepsOf (Event.stepRun p :: tr) = p :: stepsOf tr := rfl

/-- Token-validation events are invisible to `stepsOf`. -/
theorem stepsOf_validatedToken_cons (t : Str) (b : Bool) (tr : List Event) :
    stepsOf (Event.validatedToken t b :: tr) = stepsOf tr := rfl

/-- Player-validation events are invisible to `stepsOf`. -/
theorem stepsOf_map_validatedPlayer (l : List (Str × Bool)) :
    stepsOf (l.map (fun c => Event.validatedPlayer c.1 c.2)) = [] := by
  induction l with
  | nil => rfl
  | cons x xs ih => simpa [stepsOf] using ih

/-- The initial step always reports exactly the entry check. -/
theorem step_user_snd (entries : List Entry) :
    (step_user entries).2 = [Event.stepRun .user] := by
  cases entries with
  | nil => rfl
  | cons e es =>
      simp only [step_user]
      split <;> rfl

/-- From the player phase, a run that persists an entry executes only
player steps, at least one. -/
theorem runLoop_player_steps (entries : List Entry) :
    ∀ (inputs : List StepInput) (ak pu : Option Str) (tr : List Event)
      (c : Created),
      runLoop entries ⟨.player, ak, pu⟩ inputs = (tr, some c) →
      ∃ b, 1 ≤ b ∧ stepsOf tr = List.replicate b Phase.player := by
  intro inputs
  induction inputs with
  | nil => intro ak pu tr c h; simp [runLoop] at h
  | cons i rest ih =>
      intro ak pu tr c h
      simp only [runLoop] at h
      rcases hsp : async_step_player ⟨ak, pu⟩ entries (some i.value) i.resp
        with ⟨res, calls⟩
      rw [hsp] at h
      cases res with
      | createEntry title data =>
          simp only [Prod.mk.injEq] at h
          obtain ⟨h1, h2⟩ := h
          subst h1
          refine ⟨1, le_refl 1, ?_⟩
          simp [stepsOf_stepRun_cons, stepsOf_map_validatedPlayer,
            List.replicate_succ]
      | showForm s errs =>
          rcases hrl : runLoop entries ⟨.player, ak, pu⟩ rest with ⟨tr2, c2⟩
          rw [hrl] at h
          simp only [withEvents, Prod.mk.injEq] at h
          obtain ⟨h1, h2⟩ := h
          subst h1
          subst h2
          obtain ⟨b, hb, hs⟩ := ih ak pu tr2 c hrl
          refine ⟨b + 1, by omega, ?_⟩
          simp [stepsOf_append, stepsOf_stepRun_cons,
            stepsOf_map_validatedPlayer, hs, List.replicate_succ]

/-- From the token phase, a run that persists an entry executes one or
more token steps followed by one or more player steps. -/
theorem runLoop_token_steps (entries : List Entry) :
    ∀ (inputs : List StepInput) (ak pu : Option Str) (tr : List Event)
      (c : Created),
      runLoop entries ⟨.token, ak, pu⟩ inputs = (tr, some c) →
      ∃ a b, 1 ≤ a ∧ 1 ≤ b ∧
        stepsOf tr
          = List.replicate a Phase.token ++ List.replicate b Phase.player := by
  intro inputs
  induction inputs with
  | nil => intro ak pu tr c h; simp [runLoop] at h
  | cons i rest ih =>
      intro ak pu tr c h
      simp only [runLoop] at h
      by_cases hv : pyTruthy i.value = false
      · rw [if_pos hv] at h
        rcases hrl : runLoop entries ⟨.token, ak, pu⟩ rest with ⟨tr2, c2⟩
        rw [hrl] at h
        simp only [withEvents, Prod.mk.injEq] at h
        obtain ⟨h1, h2⟩ := h
        subst h1
        subst h2
        obtain ⟨a, b, ha, hb, hs⟩ := ih ak pu tr2 c hrl
        refine ⟨a + 1, b, by omega, hb, ?_⟩
        simp [stepsOf_append, stepsOf_stepRun_cons, hs, List.replicate_succ]
      · rw [if_neg hv] at h
        by_cases hok : (validate_api_token (i.value.getD []) pu i.resp).valid
            = true
        · rw [if_pos hok] at h
          rcases hrl : runLoop entries ⟨.player, some (i.value.getD []), pu⟩
            rest with ⟨tr2, c2⟩
          rw [hrl] at h
          simp only [withEvents, Prod.mk.injEq] at h
          obtain ⟨h1, h2⟩ := h
          subst h1
          subst h2
          obtain ⟨b, hb, hs⟩ :=
            runLoop_player_steps entries rest (some (i.value.getD [])) pu
              tr2 c hrl
          refine ⟨1, b, le_refl 1, hb, ?_⟩
          simp [stepsOf_append, stepsOf_stepRun_cons,
            stepsOf_validatedToken_cons, hs, List.replicate_succ]
        · rw [if_neg hok] at h
          rcases hrl : runLoop entries ⟨.token, ak, pu⟩ rest with ⟨tr2, c2⟩
          rw [hrl] at h
          simp only [withEvents, Prod.mk.injEq] at h
          obtain ⟨h1, h2⟩ := h
          subst h1
          subst h2
          obtain ⟨a, b, ha, hb, hs⟩ := ih ak pu tr2 c hrl
          refine ⟨a + 1, b, by omega, hb, ?_⟩
          simp [stepsOf_append, stepsOf_stepRun_cons,
            stepsOf_validatedToken_cons, hs, List.replicate_succ]

/-- From the proxy phase, a run that persists an entry executes one
proxy step, then token steps, then player steps. -/
theorem runLoop_proxy_steps (entries : List Entry) (inputs : List StepInput)
    (ak pu : Option Str) (tr : List Event) (c : Created)
    (h : runLoop entries ⟨.proxy, ak, pu⟩ inputs = (tr, some c)) :
    ∃ a b, 1 ≤ a ∧ 1 ≤ b ∧
      stepsOf tr = Phase.proxy ::
        (List.replicate a Phase.token ++ List.replicate b Phase.player) := by
  cases inputs with
  | nil => simp [runLoop] at h
  | cons i rest =>
      simp only [runLoop] at h
      rcases hrl : runLoop entries ⟨.token, ak, i.value⟩ rest with ⟨tr2, c2⟩
      rw [hrl] at h
      simp only [withEvents, Prod.mk.injEq] at h
      obtain ⟨h1, h2⟩ := h
      subst h1
      subst h2
      obtain ⟨a, b, ha, hb, hs⟩ :=
        runLoop_token_steps entries rest ak i.value tr2 c hrl
      exact ⟨a, b, ha, hb, by
        simp [stepsOf_append, stepsOf_stepRun_cons, hs]⟩

/-- C6: starting with no configured entries, a run that persists an
entry walks the steps in the fixed linear order user (entry check),
proxy, token (repeated until valid), player (repeated until valid),
and then persists; no step is skipped or reordered. -/
theorem C6_linear_step_order (inputs : List StepInput) (tr : List Event)
    (c : Created) (h : runFlow [] inputs = (tr, some c)) :
    ∃ a b, 1 ≤ a ∧ 1 ≤ b ∧
      stepsOf tr = Phase.user :: Phase.proxy ::
        (List.replicate a Phase.token ++ List.replicate b Phase.player) := by
  unfold runFlow at h
  rcases hrl : runLoop [] (step_user []).1 inputs with ⟨tr2, c2⟩
  rw [hrl] at h
  simp only [withEvents, Prod.mk.injEq] at h
  obtain ⟨h1, h2⟩ := h
  subst h1
  subst h2
  obtain ⟨a, b, ha, hb, hs⟩ := runLoop_proxy_steps [] inputs none none tr2 c hrl
  exact ⟨a, b, ha, hb, by
    simp [step_user, stepsOf_append, stepsOf_stepRun_cons, hs]⟩

/-- From the player phase the stored api_token is no longer changed:
the persisted entry records exactly the state's token. -/
theorem runLoop_player_keeps_token (entries : List Entry) :
    ∀ (inputs : List StepInput) (ak pu : Option Str) (tr : List Event)
      (c : Created),
      runLoop entries ⟨.player, ak, pu⟩ inputs = (tr, some c) →
      pyGet c.data "api_token" = ak := by
  intro inputs
  induction inputs with
  | nil => intro ak pu tr c h; simp [runLoop] at h
  | cons i rest ih =>
      intro ak pu tr c h
      simp only [runLoop] at h
      rcases hsp : async_step_player ⟨ak, pu⟩ entries (some i.value) i.resp
        with ⟨res, calls⟩
      rw [hsp] at h
      cases res with
      | createEntry title data =>
          simp only [Prod.mk.injEq, Option.some.injEq] at h
          obtain ⟨h1, h2⟩ := h
          subst h2
          obtain ⟨raw, hin, hT, hD, hC, hcfg, hval⟩ :=
            async_step_player_createEntry ⟨ak, pu⟩ entries (some i.value)
              i.resp title data calls hsp
          subst hD
          rfl
      | showForm s errs =>
          rcases hrl : runLoop entries ⟨.player, ak, pu⟩ rest with ⟨tr2, c2⟩
          rw [hrl] at h
          simp only [withEvents, Prod.mk.injEq] at h
          obtain ⟨h1, h2⟩ := h
          subst h2
          exact ih ak pu tr2 c hrl

/-- From the token phase, persistence implies a successful token
validation whose token is exactly the one the entry stores. -/
theorem runLoop_token_validated (entries : List Entry) :
    ∀ (inputs : List StepInput) (ak pu : Option Str) (tr : List Event)
      (c : Created),
      runLoop entries ⟨.token, ak, pu⟩ inputs = (tr, some c) →
      ∃ tok, Event.validatedToken tok true ∈ tr ∧
        pyGet c.data "api_token" = some tok := by
  intro inputs
  induction inputs with
  | nil => intro ak pu tr c h; simp [runLoop] at h
  | cons i rest ih =>
      intro ak pu tr c h
      simp only [runLoop] at h
      by_cases hv : pyTruthy i.value = false
      · rw [if_pos hv] at h
        rcases hrl : runLoop entries ⟨.token, ak, pu⟩ rest with ⟨tr2, c2⟩
        rw [hrl] at h
        simp only [withEvents, Prod.mk.injEq] at h
        obtain ⟨h1, h2⟩ := h
        subst h1
        subst h2
        obtain ⟨tok, hmem, hdata⟩ := ih ak pu tr2 c hrl
        exact ⟨tok, by simp [hmem], hdata⟩
      · rw [if_neg hv] at h
        by_cases hok : (validate_api_token (i.value.getD []) pu i.resp).valid
            = true
        · rw [if_pos hok] at h
          rcases hrl : runLoop entries ⟨.player, some (i.value.getD []), pu⟩
            rest with ⟨tr2, c2⟩
          rw [hrl] at h
          simp only [withEvents, Prod.mk.injEq] at h
          obtain ⟨h1, h2⟩ := h
          subst h1
          subst h2
          have hkeep := runLoop_player_keeps_token entries rest
            (some (i.value.getD [])) pu tr2 c hrl
          exact ⟨i.value.getD [], by simp, hkeep⟩
        · rw [if_neg hok] at h
          rcases hrl : runLoop entries ⟨.token, ak, pu⟩ rest with ⟨tr2, c2⟩
          rw [hrl] at h
          simp only [withEvents, Prod.mk.injEq] at h
          obtain ⟨h1, h2⟩ := h
          subst h1
          subst h2
          obtain ⟨tok, hmem, hdata⟩ := ih ak pu tr2 c hrl
          exact ⟨tok, by simp [hmem], hdata⟩

/-- From the proxy phase, persistence implies a successful token
validation for the stored token. -/
theorem runLoop_proxy_validated (entries : List Entry)
    (inputs : List StepInput) (ak pu : Option Str) (tr : List Event)
    (c : Created)
    (h : runLoop entries ⟨.proxy, ak, pu⟩ inputs = (tr, some c)) :
    ∃ tok, Event.validatedToken tok true ∈ tr ∧
      pyGet c.data "api_token" = some tok := by
  cases inputs with
  | nil => simp [runLoop] at h
  | cons i rest =>
      simp only [runLoop] at h
      rcases hrl : runLoop entries ⟨.token, ak, i.value⟩ rest with ⟨tr2, c2⟩
      rw [hrl] at h
      simp only [withEvents, Prod.mk.injEq] at h
      obtain ⟨h1, h2⟩ := h
      subst h1
      subst h2
      obtain ⟨tok, hmem, hdata⟩ :=
        runLoop_token_validated entries rest ak i.value tr2 c hrl
      exact ⟨tok, by simp [hmem], hdata⟩

/-- From any phase, persistence implies a successful player validation
for exactly the tag the entry stores. -/
theorem runLoop_player_validated (entries : List Entry) :
    ∀ (inputs : List StepInput) (st : St) (tr : List Event) (c : Created),
      runLoop entries st inputs = (tr, some c) →
      ∃ ptag, Event.validatedPlayer ptag true ∈ tr ∧
        pyGet c.data "player_tag" = some ptag := by
  intro inputs
  induction inputs with
  | nil => intro st tr c h; simp [runLoop] at h
  | cons i rest ih =>
      intro st tr c h
      obtain ⟨ph, ak, pu⟩ := st
      cases ph with
      | user => simp [runLoop] at h
      | proxy =>
          simp only [runLoop] at h
          rcases hrl : runLoop entries ⟨.token, ak, i.value⟩ rest with ⟨tr2, c2⟩
          rw [hrl] at h
          simp only [withEvents, Prod.mk.injEq] at h
          obtain ⟨h1, h2⟩ := h
          subst h1
          subst h2
          obtain ⟨ptag, hmem, hdata⟩ := ih ⟨.token, ak, i.value⟩ tr2 c hrl
          exact ⟨ptag, by simp [hmem], hdata⟩
      | token =>
          simp only [runLoop] at h
          by_cases hv : pyTruthy i.value = false
          · rw [if_pos hv] at h
            rcases hrl : runLoop entries ⟨.token, ak, pu⟩ rest with ⟨tr2, c2⟩
            rw [hrl] at h
            simp only [withEvents, Prod.mk.injEq] at h
            obtain ⟨h1, h2⟩ := h
            subst h1
            subst h2
            obtain ⟨ptag, hmem, hdata⟩ := ih ⟨.token, ak, pu⟩ tr2 c hrl
            exact ⟨ptag, by simp [hmem], hdata⟩
          · rw [if_neg hv] at h
            by_cases hok : (validate_api_token (i.value.getD []) pu
                i.resp).valid = true
            · rw [if_pos hok] at h
              rcases hrl : runLoop entries
                ⟨.player, some (i.value.getD []), pu⟩ rest with ⟨tr2, c2⟩
              rw [hrl] at h
              simp only [withEvents, Prod.mk.injEq] at h
              obtain ⟨h1, h2⟩ := h
              subst h1
              subst h2
              obtain ⟨ptag, hmem, hdata⟩ :=
                ih ⟨.player, some (i.value.getD []), pu⟩ tr2 c hrl
              exact ⟨ptag, by simp [hmem], hdata⟩
            · rw [if_neg hok] at h
              rcases hrl : runLoop entries ⟨.token, ak, pu⟩ rest
                with ⟨tr2, c2⟩
              rw [hrl] at h
              simp only [withEvents, Prod.mk.injEq] at h
              obtain ⟨h1, h2⟩ := h
              subst h1
              subst h2
              obtain ⟨ptag, hmem, hdata⟩ := ih ⟨.token, ak, pu⟩ tr2 c hrl
              exact ⟨ptag, by simp [hmem], hdata⟩
      | player =>
          simp only [runLoop] at h
          rcases hsp : async_step_player ⟨ak, pu⟩ entries (some i.value)
            i.resp with ⟨res, calls⟩
          rw [hsp] at h
          cases res with
          | createEntry title data =>
              simp only [Prod.mk.injEq, Option.some.injEq] at h
              obtain ⟨h1, h2⟩ := h
              subst h1
              subst h2
              obtain ⟨raw, hin, hT, hD, hC, hcfg, hval⟩ :=
                async_step_player_createEntry ⟨ak, pu⟩ entries (some i.value)
                  i.resp title data calls hsp
              subst hD
              subst hC
              exact ⟨normalize_player_tag raw, by simp, rfl⟩
          | showForm s errs =>
              rcases hrl : runLoop entries ⟨.player, ak, pu⟩ rest
                with ⟨tr2, c2⟩
              rw [hrl] at h
              simp only [withEvents, Prod.mk.injEq] at h
              obtain ⟨h1, h2⟩ := h
              subst h1
              subst h2
              obtain ⟨ptag, hmem, hdata⟩ := ih ⟨.player, ak, pu⟩ tr2 c hrl
              exact ⟨ptag, by simp [hmem], hdata⟩

/-- C5 (amended): a run that persists an entry always validated the
stored player tag successfully during the run; the stored api token
was additionally validated whenever the run started with no existing
entries.  (With an existing entry holding a truthy token, the flow
reuses that token without re-validating it.) -/
theorem C5_persist_implies_validations (entries : List Entry)
    (inputs : List StepInput) (tr : List Event) (c : Created)
    (h : runFlow entries inputs = (tr, some c)) :
    (∃ ptag, Event.validatedPlayer ptag true ∈ tr ∧
      pyGet c.data "player_tag" = some ptag) ∧
    (entries = [] →
      ∃ tok, Event.validatedToken tok true ∈ tr ∧
        pyGet c.data "api_token" = some tok) := by
  unfold runFlow at h
  rcases hrl : runLoop entries (step_user entries).1 inputs with ⟨tr2, c2⟩
  rw [hrl] at h
  simp only [withEvents, Prod.mk.injEq] at h
  obtain ⟨h1, h2⟩ := h
  subst h1
  subst h2
  constructor
  · obtain ⟨ptag, hmem, hdata⟩ :=
      runLoop_player_validated entries inputs (step_user entries).1 tr2 c hrl
    exact ⟨ptag, by simp [hmem], hdata⟩
  · intro he
    subst he
    obtain ⟨tok, hmem, hdata⟩ :=
      runLoop_proxy_validated [] inputs none none tr2 c hrl
    exact ⟨tok, by simp [hmem], hdata⟩

/-- One pre-configured entry holding a truthy api token. -/
def entriesC5 : List Entry :=
  [⟨[("api_token", some ['T']), ("player_tag", some ['#','A']),
     ("proxy_url", none)]⟩]

/-- A single submission of a fresh player tag that validates. -/
def inputsC5 : List StepInput := [⟨some ['#','B'], .ok 200⟩]

/-- C5 counterexample: starting from an existing entry with a stored
api token, the flow persists a new entry after validating only the
player tag; no api-token validation happens anywhere in the run, so
persisting does not imply that the token was validated in that run. -/
theorem C5_counterexample_token_not_validated :
    (runFlow entriesC5 inputsC5).2.isSome = true ∧
    (runFlow entriesC5 inputsC5).1.all
      (fun e => !isTokenValidationEvent e) = true := by decide

/-- Submissions of a full fresh run: empty proxy form, a valid token,
a valid fresh player tag. -/
def inputsRun0 : List StepInput :=
  [⟨none, .ok 200⟩, ⟨some ['T'], .ok 200⟩, ⟨some ['#','A'], .ok 200⟩]

/-- The trace of `runFlow [] inputsRun0`. -/
def trRun0 : List Event :=
  [.stepRun .user, .stepRun .proxy, .stepRun .token,
   .validatedToken ['T'] true, .stepRun .player,
   .validatedPlayer ['#','A'] true]

/-- The entry created by `runFlow [] inputsRun0`. -/
def cRun0 : Created :=
  ⟨playerTitle ['#','A'],
   [("api_token", some ['T']), ("player_tag", some ['#','A']),
    ("proxy_url", none)]⟩

/-- Witness for the amended C5 on a concrete fresh run. -/
theorem C5_witness :
    (∃ ptag, Event.validatedPlayer ptag true ∈ trRun0 ∧
      pyGet cRun0.data "player_tag" = some ptag) ∧
    (([] : List Entry) = [] →
      ∃ tok, Event.validatedToken tok true ∈ trRun0 ∧
        pyGet cRun0.data "api_token" = some tok) :=
  C5_persist_implies_validations [] inputsRun0 trRun0 cRun0 rfl

/-- Witness for C6 on the same concrete fresh run. -/
theorem C6_witness :
    ∃ a b, 1 ≤ a ∧ 1 ≤ b ∧
      stepsOf trRun0 = Phase.user :: Phase.proxy ::
        (List.replicate a Phase.token ++ List.replicate b Phase.player) :=
  C6_linear_step_order inputsRun0 trRun0 cRun0 rfl

/-- Witness for C4: submitting a tag that is already configured. -/
theorem C4_witness :
    pyTruthy (some ['#','A']) = true ∧
    is_player_already_configured [⟨[("player_tag", some ['#','A'])]⟩]
      (normalize_player_tag ((some ['#','A']).getD [])) = true ∧
    async_step_player ⟨some ['T'], none⟩ [⟨[("player_tag", some ['#','A'])]⟩]
      (some (some ['#','A'])) (.ok 200)
      = (.showForm "player" [("player_tag", "already_configured")], []) :=
  ⟨by decide, by decide,
   C4_already_configured_short_circuit ⟨some ['T'], none⟩
     [⟨[("player_tag", some ['#','A'])]⟩] (some ['#','A']) (.ok 200)
     (by decide) (by decide)⟩

/-- Witness for C10: a concrete created entry. -/
theorem C10_witness :
    async_step_player ⟨some ['T'], none⟩ [] (some (some ['a'])) (.ok 200)
      = (.createEntry (playerTitle ['#','a'])
          [("api_token", some ['T']), ("player_tag", some ['#','a']),
           ("proxy_url", none)], [(['#','a'], true)]) ∧
    ([("api_token", some ['T']), ("player_tag", some ['#','a']),
      ("proxy_url", (none : Option Str))].map Prod.fst
        = ["api_token", "player_tag", "proxy_url"] ∧
     ∃ ptag, pyGet [("api_token", some ['T']),
         ("player_tag", some ['#','a']),
         ("proxy_url", (none : Option Str))] "player_tag" = some ptag ∧
       startsWithHash ptag = true ∧
       playerTitle ['#','a'] = "Player ".toList ++ ptag ∧
       is_player_already_configured [] ptag = false) :=
  ⟨rfl, C10_created_entry_shape ⟨some ['T'], none⟩ [] (some (some ['a']))
    (.ok 200) (playerTitle ['#','a'])
    [("api_token", some ['T']), ("player_tag", some ['#','a']),
     ("proxy_url", none)] [(['#','a'], true)] rfl⟩

end ClashRoyale
